import Mathlib

/-!
Shallow embedding of the shaderpack-loading core of nova-renderer
(src/main/cpp/data_loading/loaders/shader_loading.cpp), together with
theorems checking the natural-language specification against it.

Representation choices:
* A JSON object node is an association list from key to the raw text of the
  value.  The inheritance resolver in the source is templated over the field
  payload type and never inspects payloads, so abstracting every payload to
  its raw text is faithful for everything proved here.
* `std::unordered_map` is modelled as an association list; `operator[]`
  (which default-constructs a missing entry) is `ensure` / `insertReplace`.
  The list order stands for one possible iteration order of the hash map;
  order-sensitivity questions are treated up to permutation.
* The unbounded `while` loop of `fill_in_pipeline_state_field` is modelled
  with explicit fuel; a `none` result means the loop has not finished within
  the given fuel, and divergence is the statement that every fuel yields
  `none`.
-/

/-- A JSON object node: keys mapped to the raw text of their values. -/
abbrev JNode := List (String × String)

/-- Association-list lookup, modelling `unordered_map::find` / reading
`operator[]` of an existing key. -/
def alookup {α : Type} (k : String) : List (String × α) → Option α
  | [] => none
  | e :: rest => if e.1 = k then some e.2 else alookup k rest

/-- Modelling `map[k] = v`: replaces the entry in place when the key is
present, appends a new entry otherwise. -/
def insertReplace {α : Type} (k : String) (v : α) : List (String × α) → List (String × α)
  | [] => [(k, v)]
  | e :: rest => if e.1 = k then (k, v) :: rest else e :: insertReplace k v rest

/-- `pipeline_data`: one record per pipeline.  `name` and `parent_name` are
as stored by the constructor; the 29 optional state fields are those passed
to `fill_field` in `parse_pipelines_from_json` (source lines 141-169), in
source order.  A default-constructed `pipeline_data` has every optional
field unset and an empty name. -/
structure PipelineData where
  name : String := ""
  parent_name : Option String := none
  pass : Option String := none
  defines : Option String := none
  states : Option String := none
  vertex_shader : Option String := none
  fragment_shader : Option String := none
  geometry_shader : Option String := none
  tessellation_evaluation_shader : Option String := none
  tessellation_control_shader : Option String := none
  vertex_fields : Option String := none
  front_face : Option String := none
  back_face : Option String := none
  input_textures : Option String := none
  output_textures : Option String := none
  depth_texture : Option String := none
  filters : Option String := none
  fallback : Option String := none
  depth_bias : Option String := none
  slope_scaled_depth_bias : Option String := none
  stencil_ref : Option String := none
  stencil_read_mask : Option String := none
  stencil_write_mask : Option String := none
  msaa_support : Option String := none
  primitive_mode : Option String := none
  source_blend_factor : Option String := none
  destination_blend_factor : Option String := none
  alpha_src : Option String := none
  alpha_dst : Option String := none
  depth_func : Option String := none
  render_queue : Option String := none
  deriving DecidableEq

instance : Inhabited PipelineData := ⟨{}⟩

/-- The pipeline map `std::unordered_map<std::string, pipeline_data>`. -/
abbrev PMap := List (String × PipelineData)

/-- One member pointer `optional<Type> pipeline_data::*`, one constructor
per optional field passed to `fill_field` in the source. -/
inductive FieldPtr where
  | pass | defines | states | vertex_shader | fragment_shader
  | geometry_shader | tessellation_evaluation_shader | tessellation_control_shader
  | vertex_fields | front_face | back_face | input_textures | output_textures
  | depth_texture | filters | fallback | depth_bias | slope_scaled_depth_bias
  | stencil_ref | stencil_read_mask | stencil_write_mask | msaa_support
  | primitive_mode | source_blend_factor | destination_blend_factor
  | alpha_src | alpha_dst | depth_func | render_queue
  deriving DecidableEq

/-- Reading `s.*ptr`. -/
def getF : FieldPtr → PipelineData → Option String
  | .pass, s => s.pass
  | .defines, s => s.defines
  | .states, s => s.states
  | .vertex_shader, s => s.vertex_shader
  | .fragment_shader, s => s.fragment_shader
  | .geometry_shader, s => s.geometry_shader
  | .tessellation_evaluation_shader, s => s.tessellation_evaluation_shader
  | .tessellation_control_shader, s => s.tessellation_control_shader
  | .vertex_fields, s => s.vertex_fields
  | .front_face, s => s.front_face
  | .back_face, s => s.back_face
  | .input_textures, s => s.input_textures
  | .output_textures, s => s.output_textures
  | .depth_texture, s => s.depth_texture
  | .filters, s => s.filters
  | .fallback, s => s.fallback
  | .depth_bias, s => s.depth_bias
  | .slope_scaled_depth_bias, s => s.slope_scaled_depth_bias
  | .stencil_ref, s => s.stencil_ref
  | .stencil_read_mask, s => s.stencil_read_mask
  | .stencil_write_mask, s => s.stencil_write_mask
  | .msaa_support, s => s.msaa_support
  | .primitive_mode, s => s.primitive_mode
  | .source_blend_factor, s => s.source_blend_factor
  | .destination_blend_factor, s => s.destination_blend_factor
  | .alpha_src, s => s.alpha_src
  | .alpha_dst, s => s.alpha_dst
  | .depth_func, s => s.depth_func
  | .render_queue, s => s.render_queue

/-- Writing `s.*ptr = v` (engaging the optional with value `v`). -/
def setF : FieldPtr → PipelineData → String → PipelineData
  | .pass, s, v => { s with pass := some v }
  | .defines, s, v => { s with defines := some v }
  | .states, s, v => { s with states := some v }
  | .vertex_shader, s, v => { s with vertex_shader := some v }
  | .fragment_shader, s, v => { s with fragment_shader := some v }
  | .geometry_shader, s, v => { s with geometry_shader := some v }
  | .tessellation_evaluation_shader, s, v => { s with tessellation_evaluation_shader := some v }
  | .tessellation_control_shader, s, v => { s with tessellation_control_shader := some v }
  | .vertex_fields, s, v => { s with vertex_fields := some v }
  | .front_face, s, v => { s with front_face := some v }
  | .back_face, s, v => { s with back_face := some v }
  | .input_textures, s, v => { s with input_textures := some v }
  | .output_textures, s, v => { s with output_textures := some v }
  | .depth_texture, s, v => { s with depth_texture := some v }
  | .filters, s, v => { s with filters := some v }
  | .fallback, s, v => { s with fallback := some v }
  | .depth_bias, s, v => { s with depth_bias := some v }
  | .slope_scaled_depth_bias, s, v => { s with slope_scaled_depth_bias := some v }
  | .stencil_ref, s, v => { s with stencil_ref := some v }
  | .stencil_read_mask, s, v => { s with stencil_read_mask := some v }
  | .stencil_write_mask, s, v => { s with stencil_write_mask := some v }
  | .msaa_support, s, v => { s with msaa_support := some v }
  | .primitive_mode, s, v => { s with primitive_mode := some v }
  | .source_blend_factor, s, v => { s with source_blend_factor := some v }
  | .destination_blend_factor, s, v => { s with destination_blend_factor := some v }
  | .alpha_src, s, v => { s with alpha_src := some v }
  | .alpha_dst, s, v => { s with alpha_dst := some v }
  | .depth_func, s, v => { s with depth_func := some v }
  | .render_queue, s, v => { s with render_queue := some v }

/-- The member pointers passed to `fill_field` by `parse_pipelines_from_json`,
in source order (lines 141-169). -/
def allFields : List FieldPtr :=
  [.pass, .defines, .states, .vertex_shader, .fragment_shader, .geometry_shader,
   .tessellation_evaluation_shader, .tessellation_control_shader, .vertex_fields,
   .front_face, .back_face, .input_textures, .output_textures, .depth_texture,
   .filters, .fallback, .depth_bias, .slope_scaled_depth_bias, .stencil_ref,
   .stencil_read_mask, .stencil_write_mask, .msaa_support, .primitive_mode,
   .source_blend_factor, .destination_blend_factor, .alpha_src, .alpha_dst,
   .depth_func, .render_queue]

/-- `all_pipelines[k]` for its side effect: default-constructs the entry when
the key is missing, as `unordered_map::operator[]` does. -/
def ensure (k : String) (m : PMap) : PMap :=
  if (alookup k m).isSome then m else insertReplace k ({} : PipelineData) m

/-- Modelled from the spec: the `pipeline_data(name, parent, json)`
constructor is not among the provided sources.  Per the spec's data model
(section 3) it stores the name and optional parent reference and reads each
optional field from the JSON node under the field's key, leaving absent
fields unset.  Payloads are kept as raw text. -/
def mkPipelineData (name : String) (parent : Option String) (node : JNode) : PipelineData :=
  { name := name
    parent_name := parent
    pass := alookup "pass" node
    defines := alookup "defines" node
    states := alookup "states" node
    vertex_shader := alookup "vertex_shader" node
    fragment_shader := alookup "fragment_shader" node
    geometry_shader := alookup "geometry_shader" node
    tessellation_evaluation_shader := alookup "tessellation_evaluation_shader" node
    tessellation_control_shader := alookup "tessellation_control_shader" node
    vertex_fields := alookup "vertex_fields" node
    front_face := alookup "front_face" node
    back_face := alookup "back_face" node
    input_textures := alookup "input_textures" node
    output_textures := alookup "output_textures" node
    depth_texture := alookup "depth_texture" node
    filters := alookup "filters" node
    fallback := alookup "fallback" node
    depth_bias := alookup "depth_bias" node
    slope_scaled_depth_bias := alookup "slope_scaled_depth_bias" node
    stencil_ref := alookup "stencil_ref" node
    stencil_read_mask := alookup "stencil_read_mask" node
    stencil_write_mask := alookup "stencil_write_mask" node
    msaa_support := alookup "msaa_support" node
    primitive_mode := alookup "primitive_mode" node
    source_blend_factor := alookup "source_blend_factor" node
    destination_blend_factor := alookup "destination_blend_factor" node
    alpha_src := alookup "alpha_src" node
    alpha_dst := alookup "alpha_dst" node
    depth_func := alookup "depth_func" node
    render_queue := alookup "render_queue" node }

/-- The key split of `parse_pipelines_from_json` (source lines 115-120) on
character lists: `find(':')` locates the first colon, the name is
`substr(0, colon_pos)` and the parent is `substr(colon_pos + 1)`. -/
def splitCore : List Char → List Char × Option (List Char)
  | [] => ([], none)
  | c :: cs =>
    if c = ':' then ([], some cs)
    else
      let r := splitCore cs
      (c :: r.1, r.2)

/-- Splitting a pipeline-document key into pipeline name and optional parent
name. -/
def splitKey (k : String) : String × Option String :=
  let r := splitCore k.toList
  (String.mk r.1, r.2.map String.mk)

/-- The body of the first loop of `parse_pipelines_from_json`: split the key
and construct the `pipeline_data` record for one document entry. -/
def parseEntry (k : String) (node : JNode) : PipelineData :=
  mkPipelineData (splitKey k).1 (splitKey k).2 node

/-- The first loop of `parse_pipelines_from_json`: build `definition_map`,
inserting each parsed entry under its split name
(`definition_map[pipeline_state_name] = mat`). -/
def buildDefinitionMap (json : List (String × JNode)) : PMap :=
  json.foldl (fun dm e => insertReplace (splitKey e.1).1 (parseEntry e.1 e.2) dm) []

/-- The `while(!value_found)` loop of `fill_in_pipeline_state_field` (source
lines 85-98).  `us` and `cur_state` are both references to the map entry for
`name`, so the assignment `cur_state = all_pipelines[parent]` overwrites
that entry wholesale with the parent's record (default-constructing the
parent's entry first when it is absent), and the subsequent iteration reads
the parent chain from the overwritten entry.  The final write
`get_field_from_pipeline(us) = field_value.value()` re-engages the field on
the already-copied record.  Fuel bounds the unbounded source loop; `none`
means the loop did not finish within the fuel. -/
def fillLoop (f : FieldPtr) (name : String) : Nat → PMap → Option PMap
  | 0, _ => none
  | fuel + 1, m =>
    let cur := (alookup name m).getD {}
    match cur.parent_name with
    | none => some m
    | some p =>
      let m1 := ensure p m
      let pv := (alookup p m1).getD {}
      let m2 := insertReplace name pv m1
      match getF f pv with
      | some v => some (insertReplace name (setF f pv v) m2)
      | none => fillLoop f name fuel m2

/-- `fill_in_pipeline_state_field` (source lines 79-99): obtain the entry
(`operator[]` default-constructs it when absent), return at once when the
field is already set, otherwise run the parent-chasing loop. -/
def fill_in_pipeline_state_field (f : FieldPtr) (name : String) (fuel : Nat)
    (all_pipelines : PMap) : Option PMap :=
  let m0 := ensure name all_pipelines
  let us := (alookup name m0).getD {}
  if (getF f us).isSome then some m0 else fillLoop f name fuel m0

/-- `fill_field` (source lines 101-104).  The map parameter is taken **by
value** in the source, so the modifications performed by
`fill_in_pipeline_state_field` happen on a copy; the caller observes only
whether the call returned (the returned map is discarded). -/
def fill_field (name : String) (fuel : Nat) (pipelines : PMap) (f : FieldPtr) :
    Option PMap :=
  fill_in_pipeline_state_field f name fuel pipelines

/-- Whether every `fill_field` call issued for pipeline `name` returns
within the fuel (each call receives its own copy of `definition_map`). -/
def fillsOk (fuel : Nat) (dm : PMap) (name : String) : Bool :=
  allFields.all fun f => (fill_field name fuel dm f).isSome

/-- The second loop of `parse_pipelines_from_json` (source lines 131-174):
for each map item, push it unchanged when it has no parent; otherwise run
the 29 `fill_field` calls (whose results are discarded, the map being passed
by value) and push `cur_state`, which is the item as stored in
`definition_map`.  A `none` result means some `fill_field` call diverged, in
which case the source never returns. -/
def processItems (fuel : Nat) (dm : PMap) : List (String × PipelineData) →
    Option (List PipelineData)
  | [] => some []
  | item :: rest =>
    if item.2.parent_name.isNone then
      (processItems fuel dm rest).map (item.2 :: ·)
    else if fillsOk fuel dm item.1 then
      (processItems fuel dm rest).map (item.2 :: ·)
    else none

/-- `parse_pipelines_from_json` (source lines 106-177). -/
def parse_pipelines_from_json (fuel : Nat) (pipelines_json : List (String × JNode)) :
    Option (List PipelineData) :=
  let definition_map := buildDefinitionMap pipelines_json
  processItems fuel definition_map definition_map

/-- A render pass record.  Modelled from the spec: the `render_pass(json)`
constructor is not among the provided sources; per the spec each pass
document carries a `name` field serving as the map key, the rest of the
document is kept as the raw node. -/
structure RenderPass where
  name : String := ""
  raw : JNode := []
  deriving DecidableEq

/-- Modelled from the spec: `render_pass(pass_json)` reads the `name` field
of the document node and keeps the rest. -/
def mkRenderPass (j : JNode) : RenderPass :=
  { name := (alookup "name" j).getD "", raw := j }

/-- `parse_passes_from_json` (source lines 179-188): construct each pass and
key it by its name. -/
def parse_passes_from_json (json : List JNode) : List (String × RenderPass) :=
  json.foldl (fun passes pass_json =>
    let pass := mkRenderPass pass_json
    insertReplace pass.name pass passes) []

/-- A texture declaration.  The `texture_resource(json)` constructor is not
among the provided sources; only its `name` member is read by the loader. -/
structure TextureResource where
  name : String := ""
  raw : JNode := []
  deriving DecidableEq

/-- `parse_textures_from_json` (source lines 190-204): construct each
texture inside a try block; a construction failure is logged and the entry
dropped, every other entry is still parsed.  Modelled from the spec: the
`texture_resource(json)` constructor is not among the provided sources and
may throw, so it is abstracted as the fallible parameter `ctor`. -/
def parse_textures_from_json (ctor : JNode → Except String TextureResource)
    (json : List JNode) : List (String × TextureResource) :=
  json.foldl (fun textures texture_json =>
    match ctor texture_json with
    | .ok texture => insertReplace texture.name texture textures
    | .error _ => textures) []

/-- The collection of textures the spec says `parse_textures_from_json`
returns: exactly the successfully constructed textures, keyed by name. -/
def texturesSpec (ctor : JNode → Except String TextureResource)
    (json : List JNode) : List (String × TextureResource) :=
  (json.filterMap fun texture_json => (ctor texture_json).toOption).foldl
    (fun textures texture => insertReplace texture.name texture textures) []

/-- A material record; opaque to the loader logic under study. -/
structure MaterialData where
  name : String := ""
  raw : JNode := []
  deriving DecidableEq

/-- `shaderpack_data`: the four collections assembled by `load_shaderpack`. -/
structure ShaderpackData where
  pipelines_by_pass : List (String × List PipelineData) := []
  passes : List (String × RenderPass) := []
  dynamic_textures : List (String × TextureResource) := []
  materials : List (String × MaterialData) := []
  deriving DecidableEq

/-- The default-constructed `shaderpack_data{}`. -/
def emptyShaderpack : ShaderpackData := {}

/-- `load_shaderpack` (source lines 18-77).  The folder loaders
(`load_pipelines_from_folder` and friends) perform disk I/O and are not
among the provided sources; their results enter as parameters, and
`is_zip_file` as the flag `isZip`.  In the zip branch the source returns a
default-constructed pack (`return {}`); in the folder branch it assigns the
four collections into the pack, and when passes, pipelines or materials are
empty it only logs an error (lines 63-71) before returning the pack. -/
def load_shaderpack (isZip : Bool)
    (pipelinesByPass : List (String × List PipelineData))
    (loadedPasses : List (String × RenderPass))
    (loadedTextures : List (String × TextureResource))
    (loadedMaterials : List (String × MaterialData)) : ShaderpackData :=
  let pack : ShaderpackData := {}
  if isZip then
    {}
  else
    let pack := { pack with pipelines_by_pass := pipelinesByPass }
    let pack := { pack with passes := loadedPasses }
    let pack := { pack with dynamic_textures := loadedTextures }
    let pack := { pack with materials := loadedMaterials }
    pack

/-- A file system view for the defaults accessors: path to file contents. -/
abbrev FileSystem := String → Option JNode

/-- `get_default_bedrock_passes` (source lines 216-229), first call with an
empty cache: opens `config/default/bedrock_passes.json`; when the file
cannot be opened it logs an error and leaves the static document empty. -/
def get_default_bedrock_passes (fs : FileSystem) : JNode :=
  (fs "config/default/bedrock_passes.json").getD []

/-- `get_default_optifine_passes` (source lines 231-244), first call with an
empty cache.  The source opens `config/default/bedrock_passes.json` here as
well (line 235). -/
def get_default_optifine_passes (fs : FileSystem) : JNode :=
  (fs "config/default/bedrock_passes.json").getD []

/-- Lexicographic comparison of names by code point, the sorted order the
spec prescribes for bucket contents. -/
def lexLe : List Char → List Char → Bool
  | [], _ => true
  | _ :: _, [] => false
  | a :: as, b :: bs =>
    if a.toNat < b.toNat then true
    else if b.toNat < a.toNat then false
    else lexLe as bs

/-- Name order on pipelines. -/
def nameLe (p q : PipelineData) : Bool := lexLe p.name.toList q.name.toList

def insertByName (p : PipelineData) : List PipelineData → List PipelineData
  | [] => [p]
  | q :: rest => if nameLe p q then p :: q :: rest else q :: insertByName p rest

/-- Insertion sort of pipelines by name. -/
def sortByName : List PipelineData → List PipelineData
  | [] => []
  | p :: rest => insertByName p (sortByName rest)

/-- Modelled from the spec: `load_pipelines_from_folder` is not among the
provided sources.  Per the spec it parses every pipeline document, merges
them into one mapping, resolves them through `parse_pipelines_from_json`,
buckets each resolved pipeline under its `pass` field, and orders each
bucket by the sorted order of pipeline names (spec sections 4.5, 5, 6). -/
def load_pipelines_from_folder (fuel : Nat) (docs : List (List (String × JNode))) :
    Option (List (String × List PipelineData)) :=
  (parse_pipelines_from_json fuel docs.flatten).map fun pipelines =>
    let passNames := (pipelines.filterMap (fun p => p.pass)).dedup
    passNames.map fun pn =>
      (pn, sortByName (pipelines.filter (fun p => p.pass = some pn)))

/-- Unfolding lemma for one iteration of the fill loop. -/
theorem fillLoop_succ_eq (f : FieldPtr) (name : String) (fuel : Nat) (m : PMap) :
    fillLoop f name (fuel + 1) m =
      match ((alookup name m).getD {}).parent_name with
      | none => some m
      | some p =>
        match getF f ((alookup p (ensure p m)).getD {}) with
        | some v =>
          some (insertReplace name (setF f ((alookup p (ensure p m)).getD {}) v)
            (insertReplace name ((alookup p (ensure p m)).getD {}) (ensure p m)))
        | none =>
          fillLoop f name fuel
            (insertReplace name ((alookup p (ensure p m)).getD {}) (ensure p m)) := rfl

/-- A default-constructed `pipeline_data` has every optional field unset. -/
theorem getF_default (f : FieldPtr) : getF f ({} : PipelineData) = none := by
  cases f <;> rfl

theorem fillLoop_aa (n : Nat) :
    fillLoop .pass "a" n [("a", mkPipelineData "a" (some "a") [])] = none := by
  induction n with
  | zero => rfl
  | succ n ih => exact ih

/-- C2 evidence: on the self-parent pipeline map the fill loop never
finishes, for any fuel. -/
theorem parse_pipelines_diverges_on_self_parent (fuel : Nat) :
    parse_pipelines_from_json fuel [("a:a", [])] = none := by
  have hfill : fill_field "a" fuel [("a", mkPipelineData "a" (some "a") [])] FieldPtr.pass = none :=
    fillLoop_aa fuel
  have hok : fillsOk fuel [("a", mkPipelineData "a" (some "a") [])] "a" = false := by
    simp only [fillsOk, allFields, List.all_cons, hfill, Option.isSome_none, Bool.false_and]
  show processItems fuel (buildDefinitionMap [("a:a", [])]) (buildDefinitionMap [("a:a", [])]) = none
  have hdm : buildDefinitionMap [("a:a", [])] = [("a", mkPipelineData "a" (some "a") [])] := by
    decide
  rw [hdm]
  simp only [processItems]
  rw [if_neg (by decide), if_neg (by simp [hok])]

/-- C1 evidence: on the spec's two-pipeline example, the emitted child keeps
its own vertex_shader but does NOT inherit fragment_shader from the parent,
because fill_field receives the map by value and its work is discarded. -/
theorem parse_child_keeps_fields_uninherited :
    parse_pipelines_from_json 4
      [("child:parent", [("vertex_shader", "v.glsl")]),
       ("parent", [("fragment_shader", "f.glsl")])] =
      some [mkPipelineData "child" (some "parent") [("vertex_shader", "v.glsl")],
            mkPipelineData "parent" none [("fragment_shader", "f.glsl")]] ∧
    (mkPipelineData "child" (some "parent") [("vertex_shader", "v.glsl")]).fragment_shader = none ∧
    (mkPipelineData "child" (some "parent") [("vertex_shader", "v.glsl")]).vertex_shader =
      some "v.glsl" := by
  refine ⟨by decide, rfl, rfl⟩

/-- C3 counterexample: a pipeline whose parent is absent from the map is
resolved without any error; the emitted child is the parsed child unchanged. -/
theorem parse_missing_parent_succeeds :
    parse_pipelines_from_json 2 [("child:missing", [("vertex_shader", "v.glsl")])] =
      some [mkPipelineData "child" (some "missing") [("vertex_shader", "v.glsl")]] := by
  decide

def fsC4 : FileSystem := fun p =>
  if p = "config/default/bedrock_passes.json" then some [("file", "bedrock")]
  else if p = "config/default/optifine_passes.json" then some [("file", "optifine")]
  else none

/-- C4 evidence: on a file system where the two defaults files differ, the
Optifine accessor returns the Bedrock file's contents. -/
theorem optifine_defaults_read_bedrock_file :
    get_default_optifine_passes fsC4 = [("file", "bedrock")] ∧
    get_default_optifine_passes fsC4 = get_default_bedrock_passes fsC4 ∧
    fsC4 "config/default/optifine_passes.json" = some [("file", "optifine")] ∧
    get_default_optifine_passes fsC4 ≠ [("file", "optifine")] := by
  refine ⟨rfl, rfl, by decide, by decide⟩

/-- C8 counterexample: with empty passes and materials but a non-empty
pipeline collection, load_shaderpack returns a partially populated pack,
not the empty one. -/
theorem load_shaderpack_not_emptied :
    (load_shaderpack false [("main", [{ name := "p", pass := some "main" }])] [] [] []).passes
        = [] ∧
    (load_shaderpack false [("main", [{ name := "p", pass := some "main" }])] [] [] []).materials
        = [] ∧
    load_shaderpack false [("main", [{ name := "p", pass := some "main" }])] [] [] []
        ≠ emptyShaderpack := by
  refine ⟨rfl, rfl, by decide⟩

/-- C8 amended: in the folder branch the emptiness checks only log; the
returned pack carries exactly the loaded collections, whether or not any of
them is empty. -/
theorem load_shaderpack_returns_loaded_collections
    (pbp : List (String × List PipelineData)) (ps : List (String × RenderPass))
    (ts : List (String × TextureResource)) (ms : List (String × MaterialData)) :
    load_shaderpack false pbp ps ts ms =
      { pipelines_by_pass := pbp, passes := ps, dynamic_textures := ts, materials := ms } := rfl

/-- Closed form of the item loop: it emits every stored definition unchanged
and returns at all iff every fill_field call it issues terminates. -/
theorem processItems_eq (fuel : Nat) (dm : PMap) (items : List (String × PipelineData)) :
    processItems fuel dm items =
      if items.all (fun it => it.2.parent_name.isNone || fillsOk fuel dm it.1) then
        some (items.map (fun it => it.2))
      else none := by
  induction items with
  | nil => rfl
  | cons item rest ih =>
    simp only [processItems, List.all_cons, List.map_cons, ih]
    cases h1 : item.2.parent_name.isNone <;>
      cases h2 : fillsOk fuel dm item.1 <;>
      cases h3 : rest.all (fun it => it.2.parent_name.isNone || fillsOk fuel dm it.1) <;>
      simp [h1, h2, h3]

/-- C9: whenever parse_pipelines_from_json returns, its output is exactly
the parsed definition map's values: the 29 fill_field calls receive the map
by value, so definition_map is never modified after parsing. -/
theorem parse_output_is_parsed_definition_map (fuel : Nat) (json : List (String × JNode))
    (l : List PipelineData) (h : parse_pipelines_from_json fuel json = some l) :
    l = (buildDefinitionMap json).map (fun e => e.2) := by
  simp only [parse_pipelines_from_json, processItems_eq] at h
  split at h
  · exact (Option.some.inj h).symm
  · exact absurd h (by simp)

/-- Witness for C9 at a concrete input. -/
theorem parse_output_is_parsed_definition_map_witness :
    [mkPipelineData "p" none []] =
      (buildDefinitionMap [("p", ([] : JNode))]).map (fun e => e.2) :=
  parse_output_is_parsed_definition_map 1 [("p", [])] [mkPipelineData "p" none []] (by decide)

theorem fill_in_on_single_child (f : FieldPtr) (fuel : Nat) (node : JNode) :
    fill_in_pipeline_state_field f "child" fuel
        [("child", mkPipelineData "child" (some "missing") node)] =
      if (getF f (mkPipelineData "child" (some "missing") node)).isSome then
        some [("child", mkPipelineData "child" (some "missing") node)]
      else
        fillLoop f "child" fuel [("child", mkPipelineData "child" (some "missing") node)] := rfl

theorem fillLoop_missing_parent (f : FieldPtr) (n : Nat) (node : JNode) :
    fillLoop f "child" (n + 2) [("child", mkPipelineData "child" (some "missing") node)] =
      some [("child", ({} : PipelineData)), ("missing", ({} : PipelineData))] := by
  rw [fillLoop_succ_eq]
  show (match getF f ({} : PipelineData) with
        | some v =>
          some (insertReplace "child" (setF f ({} : PipelineData) v)
            [("child", ({} : PipelineData)), ("missing", ({} : PipelineData))])
        | none =>
          fillLoop f "child" (n + 1)
            [("child", ({} : PipelineData)), ("missing", ({} : PipelineData))]) = _
  rw [getF_default]
  rw [fillLoop_succ_eq]
  rfl

/-- C3 amended: on a map whose single pipeline names an absent parent,
resolution succeeds silently — operator[] materializes the missing parent
as a default (empty) definition inside fill_field's discarded copy — and
the emitted child is the parsed child unchanged; no error is reported. -/
theorem parse_missing_parent_treated_as_empty (node : JNode) (fuel : Nat) (hfuel : 2 ≤ fuel) :
    parse_pipelines_from_json fuel [("child:missing", node)] =
      some [mkPipelineData "child" (some "missing") node] := by
  obtain ⟨n, rfl⟩ : ∃ n, fuel = n + 2 := ⟨fuel - 2, by omega⟩
  have hfill : ∀ f : FieldPtr,
      (fill_field "child" (n + 2)
        [("child", mkPipelineData "child" (some "missing") node)] f).isSome = true := by
    intro f
    show (fill_in_pipeline_state_field f "child" (n + 2)
      [("child", mkPipelineData "child" (some "missing") node)]).isSome = true
    rw [fill_in_on_single_child]
    by_cases hf : (getF f (mkPipelineData "child" (some "missing") node)).isSome
    · rw [if_pos hf]; rfl
    · rw [if_neg hf, fillLoop_missing_parent]; rfl
  have hok : fillsOk (n + 2) [("child", mkPipelineData "child" (some "missing") node)]
      "child" = true := by
    simp only [fillsOk]
    exact List.all_eq_true.mpr fun f _ => hfill f
  have hdm : buildDefinitionMap [("child:missing", node)] =
      [("child", mkPipelineData "child" (some "missing") node)] := rfl
  show processItems (n + 2) (buildDefinitionMap [("child:missing", node)])
    (buildDefinitionMap [("child:missing", node)]) = _
  rw [hdm, processItems_eq]
  simp [hok]

/-- The split of `splitCore` characterized with takeWhile and dropWhile. -/
theorem splitCore_eq (cs : List Char) :
    splitCore cs = (cs.takeWhile (fun c => c ≠ ':'),
      if (':' : Char) ∈ cs then some ((cs.dropWhile (fun c => c ≠ ':')).tail) else none) := by
  induction cs with
  | nil => simp [splitCore]
  | cons c cs ih =>
    simp only [splitCore]
    by_cases hc : c = ':'
    · subst hc
      simp [List.takeWhile_cons, List.dropWhile_cons]
    · simp only [ih, List.takeWhile_cons, List.dropWhile_cons, List.mem_cons]
      simp [hc, Ne.symm hc]

/-- C7: parse_pipelines_from_json splits each key on the first colon: the
stored pipeline name is the substring before the first colon, the parent is
everything after it; with no colon the whole key is the name and the parent
stays unset. -/
theorem parse_entry_splits_on_first_colon (k : String) (node : JNode) :
    (parseEntry k node).name = String.mk (k.toList.takeWhile (fun c => c ≠ ':')) ∧
    (parseEntry k node).parent_name =
      (if (':' : Char) ∈ k.toList then
        some (String.mk ((k.toList.dropWhile (fun c => c ≠ ':')).tail))
      else none) := by
  unfold parseEntry mkPipelineData splitKey
  rw [splitCore_eq]
  refine ⟨rfl, ?_⟩
  by_cases hmem : (':' : Char) ∈ k.toList <;> simp [hmem]

/-- C10: parse_textures_from_json returns exactly the successfully
constructed textures, keyed by name; entries whose construction fails are
dropped while all remaining entries are still parsed. -/
theorem parse_textures_keeps_exactly_successes
    (ctor : JNode → Except String TextureResource) (json : List JNode) :
    parse_textures_from_json ctor json = texturesSpec ctor json := by
  suffices H : ∀ acc : List (String × TextureResource),
      json.foldl (fun textures texture_json =>
        match ctor texture_json with
        | .ok texture => insertReplace texture.name texture textures
        | .error _ => textures) acc =
      (json.filterMap fun texture_json => (ctor texture_json).toOption).foldl
        (fun textures texture => insertReplace texture.name texture textures) acc from
    H []
  induction json with
  | nil => intro acc; rfl
  | cons j rest ih =>
    intro acc
    simp only [List.foldl_cons, List.filterMap_cons]
    cases hc : ctor j with
    | ok t => simp only [Except.toOption, List.foldl_cons]; exact ih _
    | error e => simp only [Except.toOption]; exact ih _

theorem lexLe_total (as : List Char) : ∀ bs, lexLe as bs = true ∨ lexLe bs as = true := by
  induction as with
  | nil => intro bs; exact Or.inl rfl
  | cons a as ih =>
    intro bs
    cases bs with
    | nil => exact Or.inr rfl
    | cons b bs =>
      simp only [lexLe]
      rcases Nat.lt_trichotomy a.toNat b.toNat with h | h | h
      · left; simp [h]
      · have h1 : ¬ a.toNat < b.toNat := by omega
        have h2 : ¬ b.toNat < a.toNat := by omega
        simpa [h1, h2] using ih bs
      · right; simp [h]

theorem lexLe_trans (as : List Char) :
    ∀ bs cs, lexLe as bs = true → lexLe bs cs = true → lexLe as cs = true := by
  induction as with
  | nil => intro bs cs _ _; rfl
  | cons a as ih =>
    intro bs cs h1 h2
    cases bs with
    | nil => simp [lexLe] at h1
    | cons b bs =>
      cases cs with
      | nil => simp [lexLe] at h2
      | cons c cs =>
        simp only [lexLe] at h1 h2 ⊢
        split at h1
        · rename_i hab
          split at h2
          · rename_i hbc
            simp [Nat.lt_trans hab hbc]
          · rename_i hbc
            split at h2
            · cases h2
            · rename_i hcb
              have hac : a.toNat < c.toNat := by omega
              simp [hac]
        · rename_i hab
          split at h1
          · cases h1
          · rename_i hba
            split at h2
            · rename_i hbc
              have hac : a.toNat < c.toNat := by omega
              simp [hac]
            · rename_i hbc
              split at h2
              · cases h2
              · rename_i hcb
                have hac : ¬ a.toNat < c.toNat := by omega
                have hca : ¬ c.toNat < a.toNat := by omega
                simp [hac, hca, ih bs cs h1 h2]

theorem mem_insertByName (p b : PipelineData) (l : List PipelineData) :
    b ∈ insertByName p l ↔ b = p ∨ b ∈ l := by
  induction l with
  | nil => simp [insertByName]
  | cons q rest ih =>
    simp only [insertByName]
    by_cases h : nameLe p q
    · rw [if_pos h]; simp [List.mem_cons]
    · rw [if_neg h]; simp only [List.mem_cons, ih]; tauto

theorem sorted_insertByName (p : PipelineData) (l : List PipelineData)
    (h : l.Pairwise (fun a b => nameLe a b = true)) :
    (insertByName p l).Pairwise (fun a b => nameLe a b = true) := by
  induction l with
  | nil => simp [insertByName]
  | cons q rest ih =>
    rcases List.pairwise_cons.mp h with ⟨hq, hrest⟩
    simp only [insertByName]
    by_cases hle : nameLe p q
    · rw [if_pos hle]
      refine List.pairwise_cons.mpr ⟨fun b hb => ?_, h⟩
      rcases List.mem_cons.mp hb with hbq | hbr
      · exact hbq ▸ hle
      · exact lexLe_trans _ _ _ hle (hq b hbr)
    · rw [if_neg hle]
      have hqp : nameLe q p = true := by
        rcases lexLe_total p.name.toList q.name.toList with ht | ht
        · exact absurd ht hle
        · exact ht
      refine List.pairwise_cons.mpr ⟨fun b hb => ?_, ih hrest⟩
      rcases (mem_insertByName p b rest).mp hb with hbp | hbr
      · exact hbp ▸ hqp
      · exact hq b hbr

theorem sorted_sortByName (l : List PipelineData) :
    (sortByName l).Pairwise (fun a b => nameLe a b = true) := by
  induction l with
  | nil => exact List.Pairwise.nil
  | cons p rest ih => exact sorted_insertByName p _ ih

/-- C6: in the assembled pipelines_by_pass, every bucket is ordered by the
sorted order of the pipeline names. -/
theorem pipelines_by_pass_buckets_sorted (fuel : Nat) (docs : List (List (String × JNode)))
    (buckets : List (String × List PipelineData))
    (h : load_pipelines_from_folder fuel docs = some buckets)
    (pn : String) (bucket : List PipelineData) (hmem : (pn, bucket) ∈ buckets) :
    bucket.Pairwise (fun a b => nameLe a b = true) := by
  unfold load_pipelines_from_folder at h
  cases hp : parse_pipelines_from_json fuel docs.flatten with
  | none => rw [hp] at h; exact absurd h (by simp)
  | some ps =>
    rw [hp] at h
    simp only [Option.map_some'] at h
    injection h with h
    rw [← h] at hmem
    rcases List.mem_map.mp hmem with ⟨x, _, hxeq⟩
    injection hxeq with h1 h2
    rw [← h2]
    exact sorted_sortByName _

/-- Witness for C6 at a concrete input. -/
theorem pipelines_by_pass_buckets_sorted_witness :
    load_pipelines_from_folder 1 [[("y", [("pass", "main")]), ("x", [("pass", "main")])]] =
      some [("main", [mkPipelineData "x" none [("pass", "main")],
                      mkPipelineData "y" none [("pass", "main")]])] ∧
    List.Pairwise (fun a b : PipelineData => nameLe a b = true)
      [mkPipelineData "x" none [("pass", "main")],
       mkPipelineData "y" none [("pass", "main")]] :=
  ⟨by decide,
   pipelines_by_pass_buckets_sorted 1 [[("y", [("pass", "main")]), ("x", [("pass", "main")])]]
     [("main", [mkPipelineData "x" none [("pass", "main")],
                mkPipelineData "y" none [("pass", "main")]])]
     (by decide) "main"
     [mkPipelineData "x" none [("pass", "main")], mkPipelineData "y" none [("pass", "main")]]
     (by decide)⟩

theorem alookup_perm {α : Type} (k : String) {m1 m2 : List (String × α)}
    (h : m1.Perm m2) : (m1.map Prod.fst).Nodup → alookup k m1 = alookup k m2 := by
  induction h with
  | nil => intro _; rfl
  | cons a h ih =>
    intro hn
    simp only [alookup]
    by_cases ha : a.1 = k
    · rw [if_pos ha, if_pos ha]
    · rw [if_neg ha, if_neg ha]
      exact ih (by simp only [List.map_cons, List.nodup_cons] at hn; exact hn.2)
  | swap x y l =>
    intro hn
    simp only [List.map_cons, List.nodup_cons, List.mem_cons] at hn
    have hyx : y.1 ≠ x.1 := fun e => hn.1 (Or.inl e)
    simp only [alookup]
    by_cases hx : x.1 = k <;> by_cases hy : y.1 = k
    · exact absurd (hy.trans hx.symm) hyx
    · simp [hx, hy]
    · simp [hx, hy]
    · simp [hx, hy]
  | trans h12 h23 ih12 ih23 =>
    intro hn
    exact (ih12 hn).trans (ih23 ((h12.map Prod.fst).nodup hn))

theorem insertReplace_perm {α : Type} (k : String) (v : α) {m1 m2 : List (String × α)}
    (h : m1.Perm m2) : (m1.map Prod.fst).Nodup →
    (insertReplace k v m1).Perm (insertReplace k v m2) := by
  induction h with
  | nil => intro _; exact List.Perm.refl _
  | cons a h ih =>
    intro hn
    simp only [insertReplace]
    by_cases ha : a.1 = k
    · rw [if_pos ha, if_pos ha]; exact List.Perm.cons _ h
    · rw [if_neg ha, if_neg ha]
      exact List.Perm.cons _ (ih (by simp only [List.map_cons, List.nodup_cons] at hn; exact hn.2))
  | swap x y l =>
    intro hn
    simp only [List.map_cons, List.nodup_cons, List.mem_cons] at hn
    have hyx : y.1 ≠ x.1 := fun e => hn.1 (Or.inl e)
    simp only [insertReplace]
    by_cases hx : x.1 = k <;> by_cases hy : y.1 = k
    · exact absurd (hy.trans hx.symm) hyx
    · simp only [if_pos hx, if_neg hy]
      exact List.Perm.swap _ _ _
    · simp only [if_pos hy, if_neg hx]
      exact List.Perm.swap _ _ _
    · simp only [if_neg hx, if_neg hy]
      exact List.Perm.swap _ _ _
  | trans h12 h23 ih12 ih23 =>
    intro hn
    exact (ih12 hn).trans (ih23 ((h12.map Prod.fst).nodup hn))

theorem alookup_eq_none_iff {α : Type} (k : String) (m : List (String × α)) :
    alookup k m = none ↔ k ∉ m.map Prod.fst := by
  induction m with
  | nil => simp [alookup]
  | cons a rest ih =>
    simp only [alookup, List.map_cons, List.mem_cons]
    by_cases ha : a.1 = k
    · simp [ha]
    · simp [ha, ih, Ne.symm ha]

theorem keys_insertReplace_present {α : Type} (k : String) (v : α) (m : List (String × α))
    (h : (alookup k m).isSome) :
    (insertReplace k v m).map Prod.fst = m.map Prod.fst := by
  induction m with
  | nil => simp [alookup] at h
  | cons a rest ih =>
    simp only [insertReplace]
    by_cases ha : a.1 = k
    · rw [if_pos ha]; simp [ha]
    · rw [if_neg ha]
      simp only [List.map_cons]
      have h2 : (alookup k rest).isSome := by
        simpa [alookup, ha] using h
      rw [ih h2]

theorem keys_insertReplace_absent {α : Type} (k : String) (v : α) (m : List (String × α))
    (h : alookup k m = none) :
    (insertReplace k v m).map Prod.fst = m.map Prod.fst ++ [k] := by
  induction m with
  | nil => rfl
  | cons a rest ih =>
    simp only [insertReplace]
    by_cases ha : a.1 = k
    · rw [if_pos ha] at *
      simp [alookup, ha] at h
    · rw [if_neg ha]
      have h2 : alookup k rest = none := by simpa [alookup, ha] using h
      simp only [List.map_cons, List.cons_append]
      rw [ih h2]

theorem keysNodup_insertReplace {α : Type} (k : String) (v : α) (m : List (String × α))
    (hn : (m.map Prod.fst).Nodup) : ((insertReplace k v m).map Prod.fst).Nodup := by
  cases hh : alookup k m with
  | some w =>
    rw [keys_insertReplace_present k v m (by rw [hh]; rfl)]
    exact hn
  | none =>
    rw [keys_insertReplace_absent k v m hh]
    have hk : k ∉ m.map Prod.fst := (alookup_eq_none_iff k m).mp hh
    rw [List.nodup_append]
    exact ⟨hn, List.nodup_singleton k, by
      intro a ha hb
      rw [List.mem_singleton] at hb
      exact hk (hb ▸ ha)⟩

theorem ensure_perm (p : String) {m1 m2 : PMap} (h : m1.Perm m2)
    (hn : (m1.map Prod.fst).Nodup) : (ensure p m1).Perm (ensure p m2) := by
  unfold ensure
  rw [← alookup_perm p h hn]
  by_cases hh : (alookup p m1).isSome
  · rw [if_pos hh, if_pos hh]; exact h
  · rw [if_neg hh, if_neg hh]; exact insertReplace_perm p {} h hn

theorem keysNodup_ensure (p : String) (m : PMap) (hn : (m.map Prod.fst).Nodup) :
    ((ensure p m).map Prod.fst).Nodup := by
  unfold ensure
  split
  · exact hn
  · exact keysNodup_insertReplace p {} m hn

theorem fillLoop_succ_parent_none (f : FieldPtr) (name : String) (fuel : Nat) (m : PMap)
    (hp : ((alookup name m).getD {}).parent_name = none) :
    fillLoop f name (fuel + 1) m = some m := by
  simp only [fillLoop_succ_eq, hp]

theorem fillLoop_succ_field_none (f : FieldPtr) (name : String) (fuel : Nat) (m : PMap)
    (p : String) (hp : ((alookup name m).getD {}).parent_name = some p)
    (hg : getF f ((alookup p (ensure p m)).getD {}) = none) :
    fillLoop f name (fuel + 1) m =
      fillLoop f name fuel
        (insertReplace name ((alookup p (ensure p m)).getD {}) (ensure p m)) := by
  simp only [fillLoop_succ_eq, hp, hg]

theorem fillLoop_succ_field_some (f : FieldPtr) (name : String) (fuel : Nat) (m : PMap)
    (p : String) (v : String) (hp : ((alookup name m).getD {}).parent_name = some p)
    (hg : getF f ((alookup p (ensure p m)).getD {}) = some v) :
    fillLoop f name (fuel + 1) m =
      some (insertReplace name (setF f ((alookup p (ensure p m)).getD {}) v)
        (insertReplace name ((alookup p (ensure p m)).getD {}) (ensure p m))) := by
  simp only [fillLoop_succ_eq, hp, hg]

theorem fillLoop_perm (f : FieldPtr) (name : String) :
    ∀ (fuel : Nat) (m1 m2 : PMap), m1.Perm m2 → (m1.map Prod.fst).Nodup →
      (fillLoop f name fuel m1 = none ∧ fillLoop f name fuel m2 = none) ∨
      ∃ r1 r2, fillLoop f name fuel m1 = some r1 ∧ fillLoop f name fuel m2 = some r2 ∧
        r1.Perm r2 := by
  intro fuel
  induction fuel with
  | zero => intro m1 m2 _ _; exact Or.inl ⟨rfl, rfl⟩
  | succ fuel ih =>
    intro m1 m2 h hn
    have hcur : alookup name m1 = alookup name m2 := alookup_perm name h hn
    cases hpn : ((alookup name m1).getD {}).parent_name with
    | none =>
      have hpn2 : ((alookup name m2).getD {}).parent_name = none := by
        rw [← hcur]; exact hpn
      rw [fillLoop_succ_parent_none f name fuel m1 hpn,
        fillLoop_succ_parent_none f name fuel m2 hpn2]
      exact Or.inr ⟨m1, m2, rfl, rfl, h⟩
    | some p =>
      have hpn2 : ((alookup name m2).getD {}).parent_name = some p := by
        rw [← hcur]; exact hpn
      have h1 : (ensure p m1).Perm (ensure p m2) := ensure_perm p h hn
      have hn1 : ((ensure p m1).map Prod.fst).Nodup := keysNodup_ensure p m1 hn
      have hpv : alookup p (ensure p m1) = alookup p (ensure p m2) := alookup_perm p h1 hn1
      have h2 : (insertReplace name ((alookup p (ensure p m1)).getD {}) (ensure p m1)).Perm
          (insertReplace name ((alookup p (ensure p m1)).getD {}) (ensure p m2)) :=
        insertReplace_perm name _ h1 hn1
      have hn2 : ((insertReplace name ((alookup p (ensure p m1)).getD {})
          (ensure p m1)).map Prod.fst).Nodup :=
        keysNodup_insertReplace name _ _ hn1
      cases hg : getF f ((alookup p (ensure p m1)).getD {}) with
      | some v =>
        have hg2 : getF f ((alookup p (ensure p m2)).getD {}) = some v := by
          rw [← hpv]; exact hg
        rw [fillLoop_succ_field_some f name fuel m1 p v hpn hg,
          fillLoop_succ_field_some f name fuel m2 p v hpn2 hg2]
        rw [← hpv]
        exact Or.inr ⟨_, _, rfl, rfl, insertReplace_perm name _ h2 hn2⟩
      | none =>
        have hg2 : getF f ((alookup p (ensure p m2)).getD {}) = none := by
          rw [← hpv]; exact hg
        rw [fillLoop_succ_field_none f name fuel m1 p hpn hg,
          fillLoop_succ_field_none f name fuel m2 p hpn2 hg2]
        rw [← hpv]
        exact ih _ _ h2 hn2

theorem fill_field_isSome_perm (name : String) (fuel : Nat) {m1 m2 : PMap}
    (h : m1.Perm m2) (hn : (m1.map Prod.fst).Nodup) (f : FieldPtr) :
    (fill_field name fuel m1 f).isSome = (fill_field name fuel m2 f).isSome := by
  show (if (getF f ((alookup name (ensure name m1)).getD {})).isSome
      then some (ensure name m1) else fillLoop f name fuel (ensure name m1)).isSome =
    (if (getF f ((alookup name (ensure name m2)).getD {})).isSome
      then some (ensure name m2) else fillLoop f name fuel (ensure name m2)).isSome
  have h0 : (ensure name m1).Perm (ensure name m2) := ensure_perm name h hn
  have hn0 : ((ensure name m1).map Prod.fst).Nodup := keysNodup_ensure name m1 hn
  rw [← alookup_perm name h0 hn0]
  by_cases hg : (getF f ((alookup name (ensure name m1)).getD {})).isSome
  · rw [if_pos hg, if_pos hg]; rfl
  · rw [if_neg hg, if_neg hg]
    rcases fillLoop_perm f name fuel _ _ h0 hn0 with ⟨e1, e2⟩ | ⟨r1, r2, e1, e2, _⟩
    · rw [e1, e2]
    · rw [e1, e2]; rfl

theorem fillsOk_perm (fuel : Nat) {m1 m2 : PMap} (h : m1.Perm m2)
    (hn : (m1.map Prod.fst).Nodup) (name : String) :
    fillsOk fuel m1 name = fillsOk fuel m2 name := by
  unfold fillsOk
  exact congrArg _ (funext fun f => fill_field_isSome_perm name fuel h hn f)

theorem all_perm_eq {α : Type} {l1 l2 : List α} (h : l1.Perm l2) (p : α → Bool) :
    l1.all p = l2.all p := by
  cases hb1 : l1.all p with
  | true =>
    exact (List.all_eq_true.mpr fun x hx =>
      List.all_eq_true.mp hb1 x (h.mem_iff.mpr hx)).symm
  | false =>
    cases hb2 : l2.all p with
    | false => rfl
    | true =>
      rw [← hb1]
      exact List.all_eq_true.mpr fun x hx => List.all_eq_true.mp hb2 x (h.mem_iff.mp hx)

theorem insertReplace_absent {α : Type} (k : String) (v : α) (m : List (String × α))
    (h : alookup k m = none) : insertReplace k v m = m ++ [(k, v)] := by
  induction m with
  | nil => rfl
  | cons a rest ih =>
    simp only [alookup] at h
    by_cases ha : a.1 = k
    · rw [if_pos ha] at h; cases h
    · rw [if_neg ha] at h
      simp only [insertReplace, if_neg ha, List.cons_append]
      rw [ih h]

/-- The definition-map entry produced for one document entry. -/
def entryOf (e : String × JNode) : String × PipelineData :=
  ((splitKey e.1).1, parseEntry e.1 e.2)

/-- The pipeline names declared by a pipeline document, in document order. -/
def pipelineNames (json : List (String × JNode)) : List String :=
  json.map fun e => (splitKey e.1).1

theorem buildDefinitionMap_foldl (json : List (String × JNode)) :
    ∀ acc : PMap, (∀ e ∈ json, (splitKey e.1).1 ∉ acc.map Prod.fst) →
      (pipelineNames json).Nodup →
      json.foldl (fun dm e => insertReplace (splitKey e.1).1 (parseEntry e.1 e.2) dm) acc =
        acc ++ json.map entryOf := by
  induction json with
  | nil => intro acc _ _; simp
  | cons e rest ih =>
    intro acc hdisj hnd
    simp only [List.foldl_cons, List.map_cons]
    have habs : alookup (splitKey e.1).1 acc = none :=
      (alookup_eq_none_iff _ _).mpr (hdisj e (List.mem_cons_self e rest))
    rw [insertReplace_absent _ _ _ habs]
    have hhead : (splitKey e.1).1 ∉ pipelineNames rest :=
      (List.nodup_cons.mp (by simpa [pipelineNames] using hnd)).1
    rw [show (((splitKey e.1).1, parseEntry e.1 e.2) : String × PipelineData) = entryOf e from
      rfl]
    rw [ih (acc ++ [entryOf e]) ?_ ?_]
    · simp [entryOf]
    · intro e' he'
      simp only [List.map_append, List.mem_append]
      rintro (hin | hin)
      · exact hdisj e' (List.mem_cons_of_mem e he') hin
      · simp only [entryOf, List.map_cons, List.map_nil, List.mem_singleton] at hin
        exact hhead (hin ▸ List.mem_map_of_mem (fun x => (splitKey x.1).1) he')
    · exact (List.nodup_cons.mp (by simpa [pipelineNames] using hnd)).2

theorem buildDefinitionMap_nodup (json : List (String × JNode))
    (hnd : (pipelineNames json).Nodup) :
    buildDefinitionMap json = json.map entryOf := by
  have := buildDefinitionMap_foldl json [] (by simp) hnd
  simpa [buildDefinitionMap] using this

/-- C5 amended: when no two document keys declare the same pipeline name,
parse_pipelines_from_json is a permutation-invariant function of the input
mapping — shuffling iteration order yields an equal result multiset (and
equal divergence behavior). -/
theorem parse_pipelines_perm_invariant (fuel : Nat) (json1 json2 : List (String × JNode))
    (hnd : (pipelineNames json1).Nodup) (hp : json1.Perm json2) :
    (parse_pipelines_from_json fuel json1).map (fun l => (l : Multiset PipelineData)) =
      (parse_pipelines_from_json fuel json2).map (fun l => (l : Multiset PipelineData)) := by
  have hnames : (pipelineNames json1).Perm (pipelineNames json2) := by
    simpa [pipelineNames] using hp.map fun e => (splitKey e.1).1
  have hnd2 : (pipelineNames json2).Nodup := hnames.nodup hnd
  have hdm1 : buildDefinitionMap json1 = json1.map entryOf := buildDefinitionMap_nodup json1 hnd
  have hdm2 : buildDefinitionMap json2 = json2.map entryOf := buildDefinitionMap_nodup json2 hnd2
  have hperm : (buildDefinitionMap json1).Perm (buildDefinitionMap json2) := by
    rw [hdm1, hdm2]; exact hp.map entryOf
  have hkeys : ((buildDefinitionMap json1).map Prod.fst).Nodup := by
    rw [hdm1, List.map_map]
    simpa [Function.comp, entryOf, pipelineNames] using hnd
  simp only [parse_pipelines_from_json, processItems_eq]
  have hpred : ∀ it : String × PipelineData,
      (it.2.parent_name.isNone || fillsOk fuel (buildDefinitionMap json1) it.1) =
      (it.2.parent_name.isNone || fillsOk fuel (buildDefinitionMap json2) it.1) := by
    intro it; rw [fillsOk_perm fuel hperm hkeys it.1]
  have hall : (buildDefinitionMap json1).all
        (fun it => it.2.parent_name.isNone || fillsOk fuel (buildDefinitionMap json1) it.1) =
      (buildDefinitionMap json2).all
        (fun it => it.2.parent_name.isNone || fillsOk fuel (buildDefinitionMap json2) it.1) := by
    rw [congrArg (List.all (buildDefinitionMap json1)) (funext hpred)]
    exact all_perm_eq hperm _
  rw [← hall]
  cases hb : (buildDefinitionMap json1).all
      (fun it => it.2.parent_name.isNone || fillsOk fuel (buildDefinitionMap json1) it.1) with
  | false => simp
  | true =>
    rw [if_pos rfl, if_pos rfl]
    exact congrArg some (Multiset.coe_eq_coe.mpr (hperm.map fun it => it.2))

/-- C5 counterexample: two document keys declaring the same pipeline name
with different parents give order-dependent results — the later entry
overwrites the earlier one in definition_map. -/
theorem parse_pipelines_order_dependent :
    ([("a:b", ([] : JNode)), ("a:c", [])] : List (String × JNode)).Perm
        [("a:c", ([] : JNode)), ("a:b", [])] ∧
    (parse_pipelines_from_json 2 [("a:b", ([] : JNode)), ("a:c", [])]).map
        (fun l => (l : Multiset PipelineData)) ≠
      (parse_pipelines_from_json 2 [("a:c", ([] : JNode)), ("a:b", [])]).map
        (fun l => (l : Multiset PipelineData)) :=
  ⟨by decide, by decide⟩

/-- Witness for C5 at a concrete pair of permuted inputs. -/
theorem parse_pipelines_perm_invariant_witness :
    (pipelineNames [("a", ([] : JNode)), ("b", [])]).Nodup ∧
    ([("a", ([] : JNode)), ("b", [])] : List (String × JNode)).Perm
        [("b", ([] : JNode)), ("a", [])] ∧
    (parse_pipelines_from_json 1 [("a", ([] : JNode)), ("b", [])]).map
        (fun l => (l : Multiset PipelineData)) =
      (parse_pipelines_from_json 1 [("b", ([] : JNode)), ("a", [])]).map
        (fun l => (l : Multiset PipelineData)) :=
  ⟨by decide, by decide, parse_pipelines_perm_invariant 1 _ _ (by decide) (by decide)⟩

/-- Witness for the amended C3 at a concrete input. -/
theorem parse_missing_parent_treated_as_empty_witness :
    2 ≤ 2 ∧ parse_pipelines_from_json 2 [("child:missing", ([] : JNode))] =
      some [mkPipelineData "child" (some "missing") []] :=
  ⟨by decide, parse_missing_parent_treated_as_empty [] 2 (by decide)⟩
